import Mathlib

/-!
Verification of the DownloadOrganisator utility (`src/main.py`).

The development shallowly embeds the program: Python strings become `String`,
`pathlib` name operations (`suffix`, `stem`, `lstrip`) become functions on the
character data, the category table becomes a constant association list, the
collision-resolution `while` loop becomes a fuel-bounded recursion (the fuel is
one more than the number of occupied names, which is proved sufficient), and the
directory walk of `organize_downloads` becomes a fold over a snapshot of the
directory entries that threads an explicit filesystem state, an action log
(modelling the logger output and the filesystem effects) and the two counters.
The success or failure of an individual `shutil.move` call is an environment
input, supplied as the oracle `moveOk`.
-/

/-- Python `str.lower()` (per-character lowercasing), used on extensions. -/
def pyLower (s : String) : String := String.mk (s.data.map Char.toLower)

/-- Python `str.upper()` (per-character uppercasing), used on extensions. -/
def pyUpper (s : String) : String := String.mk (s.data.map Char.toUpper)

/-- Index of the last `'.'` in a character list (Python `str.rfind('.')`),
`none` when there is no dot. -/
def rfindDot : List Char → Option Nat
  | [] => none
  | c :: rest =>
    match rfindDot rest with
    | some i => some (i + 1)
    | none => if c = '.' then some 0 else none

/-- Model of `pathlib.PurePath.suffix` of a file name: the part from the last dot on,
provided that dot is neither the first nor the last character; `""` otherwise. -/
def pySuffix (name : String) : String :=
  match rfindDot name.data with
  | some i => if 0 < i ∧ i + 1 < name.data.length then String.mk (name.data.drop i) else ""
  | none => ""

/-- Model of `pathlib.PurePath.stem` of a file name: the part before the suffix, or the
whole name when there is no suffix. -/
def pyStem (name : String) : String :=
  match rfindDot name.data with
  | some i => if 0 < i ∧ i + 1 < name.data.length then String.mk (name.data.take i) else name
  | none => name

/-- Python `str.lstrip('.')`: drop all leading dots. -/
def lstripDot (s : String) : String := String.mk (s.data.dropWhile (fun c => c == '.'))

/-- The static category table `FILE_CATEGORIES` of `main.py`: category name
paired with its recognized extensions.  The Python `dict` is iterated in
insertion order and the sets are used only for membership, so an association
list is a faithful rendering. -/
def FILE_CATEGORIES : List (String × List String) :=
  [ ("Bilder", ["jpg", "jpeg", "png", "gif", "bmp", "svg", "webp", "ico"]),
    ("Dokumente", ["pdf", "doc", "docx", "txt", "odt", "rtf", "tex", "md"]),
    ("Tabellen", ["xls", "xlsx", "csv", "ods"]),
    ("Präsentationen", ["ppt", "pptx", "odp"]),
    ("Videos", ["mp4", "avi", "mkv", "mov", "wmv", "flv", "webm"]),
    ("Audio", ["mp3", "wav", "flac", "aac", "ogg", "m4a", "wma"]),
    ("Archive", ["zip", "rar", "7z", "tar", "gz", "bz2", "xz"]),
    ("Programme", ["exe", "msi", "dmg", "pkg", "deb", "rpm", "AppImage"]),
    ("Code", ["py", "js", "java", "c", "cpp", "h", "cs", "php", "rb", "go", "rs", "html", "css"]) ]

/-- Embedding of `get_category_for_extension`: lowercase the extension, return the first
category whose extension set contains it, else the extension uppercased. -/
def get_category_for_extension (ext : String) : String :=
  match FILE_CATEGORIES.find? (fun c => c.2.contains (pyLower ext)) with
  | some c => c.1
  | none => pyUpper ext

/-- The candidate file name `f"{base}_{counter}{ext}"` tried by
`get_unique_filename`. -/
def candName (base ext : String) (counter : Nat) : String :=
  base ++ "_" ++ Nat.repr counter ++ ext

/-- The `while True` loop of `get_unique_filename`, with explicit fuel.  The
loop tries `base_1ext`, `base_2ext`, … and returns the first candidate that is
not among the occupied names.  Fuel `occNames.length + 1` is provably enough
(`uniqueLoop_eq_of_least` with `exists_candName_free`). -/
def uniqueLoop (occ : List String) (base ext : String) : Nat → Nat → String
  | 0, counter => candName base ext counter
  | fuel + 1, counter =>
    if candName base ext counter ∈ occ then uniqueLoop occ base ext fuel (counter + 1)
    else candName base ext counter

/-- A filesystem path, split into the directory part and the final name, as the
run manipulates it (`target_path.parent` / `target_path.name`). -/
structure PyPath where
  parent : String
  name : String
deriving DecidableEq

/-- The names among `occupied` that live in directory `parent`: candidate paths
generated by `get_unique_filename` all stay in the target's directory, so its
`new_path.exists()` checks only ever probe these. -/
def occNamesIn (occupied : List PyPath) (parent : String) : List String :=
  (occupied.filter (fun p => p.parent == parent)).map (fun p => p.name)

/-- The loop of `get_unique_filename` run on a set of occupied sibling names,
starting at counter 1 with sufficient fuel. -/
def uniqueNameIn (names : List String) (name : String) : String :=
  uniqueLoop names (pyStem name) (pySuffix name) (names.length + 1) 1

/-- Embedding of `get_unique_filename`: return the target unchanged when nothing occupies it,
else insert `_counter` between stem and suffix for the first free counter ≥ 1.
`occupied` is the (finite) set of paths that exist on disk. -/
def get_unique_filename (occupied : List PyPath) (target : PyPath) : PyPath :=
  if target ∈ occupied then
    { parent := target.parent,
      name := uniqueNameIn (occNamesIn occupied target.parent) target.name }
  else target

/-- One immediate entry of the download directory: its name and whether it is a
regular file (`item.is_file()`). -/
structure Entry where
  name : String
  isFile : Bool
deriving DecidableEq

/-- The filesystem state the run touches: the immediate entries of the download
directory, and the files inside its (one deep) subfolders as
(folder, file name) pairs. -/
structure FS where
  root : List Entry
  sub : List (String × String)
deriving DecidableEq

/-- Check `(download_dir / folder).exists()`: some root entry bears that name. -/
def dirExists (fs : FS) (folder : String) : Bool :=
  fs.root.any (fun e => e.name == folder)

/-- Check `(download_dir / folder / name).exists()`. -/
def fileInSub (fs : FS) (folder name : String) : Bool :=
  fs.sub.contains (folder, name)

/-- Effect of `target_folder.mkdir(parents=True)`. -/
def mkdirFS (fs : FS) (folder : String) : FS :=
  { fs with root := fs.root ++ [⟨folder, false⟩] }

/-- Names of the files currently inside `folder`. -/
def subNames (fs : FS) (folder : String) : List String :=
  (fs.sub.filter (fun q => q.1 == folder)).map (fun q => q.2)

/-- Effect of `shutil.move(item, download_dir / folder / dst)`: the file leaves the root
and appears inside the folder. -/
def doMove (fs : FS) (name folder dst : String) : FS :=
  { root := fs.root.erase ⟨name, true⟩, sub := fs.sub ++ [(folder, dst)] }

/-- Observable events of a run: the log lines and filesystem effects that
`organize_downloads` produces. -/
inductive Act where
  | mkdirA (folder : String)
  | renameWarn (dst : String)
  | dryMove (src folder dst : String)
  | moveA (src folder dst : String)
  | moveErr (src : String)
  | skipNoExt (src : String)
  | errNotExist
  | errNotDir
  | tally (moved skipped : Nat)
deriving DecidableEq

/-- State accumulated over the `for item in download_dir.iterdir()` loop. -/
structure LoopState where
  fs : FS
  acts : List Act
  moved : Nat
  skipped : Nat
deriving DecidableEq

/-- The body of the directory loop for one entry `item`.  `uc` is
`use_categories`, `dry` is `dry_run`, and `moveOk` tells whether the
`shutil.move` call for a given source file succeeds or raises. -/
def processEntry (uc dry : Bool) (moveOk : String → Bool) (s : LoopState) (item : Entry) :
    LoopState :=
  if item.isFile = false then s
  else if pySuffix item.name = "" then
    { s with acts := s.acts ++ [Act.skipNoExt item.name], skipped := s.skipped + 1 }
  else
    let ext := lstripDot (pySuffix item.name)
    let folder := if uc then get_category_for_extension ext else pyUpper ext
    let fs1 := if dry = false ∧ dirExists s.fs folder = false then mkdirFS s.fs folder else s.fs
    let acts1 :=
      if dry = false ∧ dirExists s.fs folder = false then s.acts ++ [Act.mkdirA folder]
      else s.acts
    let dst :=
      if fileInSub fs1 folder item.name = true then uniqueNameIn (subNames fs1 folder) item.name
      else item.name
    let acts2 :=
      if fileInSub fs1 folder item.name = true then acts1 ++ [Act.renameWarn dst] else acts1
    if dry = true then
      { fs := fs1, acts := acts2 ++ [Act.dryMove item.name folder dst],
        moved := s.moved + 1, skipped := s.skipped }
    else if moveOk item.name = true then
      { fs := doMove fs1 item.name folder dst,
        acts := acts2 ++ [Act.moveA item.name folder dst],
        moved := s.moved + 1, skipped := s.skipped }
    else
      { fs := fs1, acts := acts2 ++ [Act.moveErr item.name],
        moved := s.moved, skipped := s.skipped + 1 }

/-- The directory loop over a snapshot of the entries. -/
def runEntries (uc dry : Bool) (moveOk : String → Bool) (s : LoopState) :
    List Entry → LoopState
  | [] => s
  | e :: l => runEntries uc dry moveOk (processEntry uc dry moveOk s e) l

/-- Result of one `organize_downloads` run. -/
structure RunResult where
  fs : FS
  actions : List Act
  moved : Nat
  skipped : Nat
deriving DecidableEq

/-- Embedding of `organize_downloads`.  `pathOk` models `download_dir.exists()` and `isDir`
models `download_dir.is_dir()`; when either fails the run reports the condition
and returns.  Otherwise every immediate entry is processed and the final tally
is reported. -/
def organize_downloads (pathOk isDir : Bool) (fs : FS) (uc dry : Bool)
    (moveOk : String → Bool) : RunResult :=
  if pathOk = false then ⟨fs, [Act.errNotExist], 0, 0⟩
  else if isDir = false then ⟨fs, [Act.errNotDir], 0, 0⟩
  else
    let s := runEntries uc dry moveOk ⟨fs, [], 0, 0⟩ fs.root
    ⟨s.fs, s.acts ++ [Act.tally s.moved s.skipped], s.moved, s.skipped⟩

/-- Actions that mutate the filesystem. -/
def isFsMut : Act → Bool
  | Act.mkdirA _ => true
  | Act.moveA _ _ _ => true
  | _ => false

/-- Dry-run report lines for a planned move. -/
def isDryMove : Act → Bool
  | Act.dryMove _ _ _ => true
  | _ => false

/-! ### Decimal representation: `Nat.repr` is injective -/

/-- Numeric value of a decimal digit character. -/
def digitVal (c : Char) : Nat := c.toNat - 48

/-- Value of a list of decimal digit characters, most significant first. -/
def valChars (l : List Char) : Nat := l.foldl (fun a c => 10 * a + digitVal c) 0

theorem valChars_go (l : List Char) :
    ∀ a : Nat, l.foldl (fun a c => 10 * a + digitVal c) a = a * 10 ^ l.length + valChars l := by
  induction l with
  | nil => intro a; simp [valChars]
  | cons c l ih =>
    intro a
    have h1 : valChars (c :: l) = digitVal c * 10 ^ l.length + valChars l := by
      simpa [valChars] using ih (10 * 0 + digitVal c)
    simp only [List.foldl_cons, List.length_cons, h1, ih (10 * a + digitVal c)]
    ring

theorem digitVal_digitChar (m : Nat) (h : m < 10) : digitVal (Nat.digitChar m) = m := by
  interval_cases m <;> decide

theorem toDigitsCore_val :
    ∀ (f n : Nat) (ds : List Char), n < 10 ^ f →
      valChars (Nat.toDigitsCore 10 f n ds) = n * 10 ^ ds.length + valChars ds := by
  intro f
  induction f with
  | zero =>
    intro n ds hn
    have : n = 0 := by omega
    subst this
    simp [Nat.toDigitsCore]
  | succ f ih =>
    intro n ds hn
    have hmod : n % 10 < 10 := Nat.mod_lt n (by omega)
    by_cases hdiv : n / 10 = 0
    · have hval : valChars (Nat.digitChar (n % 10) :: ds)
          = (n % 10) * 10 ^ ds.length + valChars ds := by
        have := valChars_go ds (10 * 0 + digitVal (Nat.digitChar (n % 10)))
        simpa [valChars, digitVal_digitChar _ hmod] using this
      have hn10 : n % 10 = n := by omega
      simp only [Nat.toDigitsCore, hdiv, if_true, eq_self_iff_true]
      rw [hn10] at hval ⊢
      exact hval
    · have hlt : n / 10 < 10 ^ f := by
        have h10 : (0:Nat) < 10 := by omega
        apply (Nat.div_lt_iff_lt_mul h10).mpr
        calc n < 10 ^ (f + 1) := hn
        _ = 10 ^ f * 10 := by rw [Nat.pow_succ]
      have hrec := ih (n / 10) (Nat.digitChar (n % 10) :: ds) hlt
      have hval : valChars (Nat.digitChar (n % 10) :: ds)
          = (n % 10) * 10 ^ ds.length + valChars ds := by
        have := valChars_go ds (10 * 0 + digitVal (Nat.digitChar (n % 10)))
        simpa [valChars, digitVal_digitChar _ hmod] using this
      have hsplit : n / 10 * 10 ^ (ds.length + 1) + ((n % 10) * 10 ^ ds.length + valChars ds)
          = n * 10 ^ ds.length + valChars ds := by
        have hdm : n / 10 * 10 + n % 10 = n := by omega
        calc n / 10 * 10 ^ (ds.length + 1) + ((n % 10) * 10 ^ ds.length + valChars ds)
            = (n / 10 * 10 + n % 10) * 10 ^ ds.length + valChars ds := by
              rw [Nat.pow_succ]; ring
          _ = n * 10 ^ ds.length + valChars ds := by rw [hdm]
      simp only [List.length_cons] at hrec
      simp only [Nat.toDigitsCore, hdiv, if_false]
      rw [hrec, hval, hsplit]

theorem valChars_toDigits (n : Nat) : valChars (Nat.toDigits 10 n) = n := by
  have hn : n < 10 ^ (n + 1) := by
    calc n < 10 ^ n := Nat.lt_pow_self (by omega) n
    _ ≤ 10 ^ (n + 1) := Nat.pow_le_pow_right (by omega) (by omega)
  simpa [valChars] using toDigitsCore_val (n + 1) n [] hn

theorem natRepr_inj {m n : Nat} (h : Nat.repr m = Nat.repr n) : m = n := by
  have hdata : (Nat.toDigits 10 m) = (Nat.toDigits 10 n) := by
    have := congrArg String.data h
    simpa [Nat.repr, List.asString] using this
  have := congrArg valChars hdata
  simpa [valChars_toDigits] using this

/-! ### The collision-resolution loop finds the least free counter -/

theorem string_data_inj {s t : String} (h : s.data = t.data) : s = t := by
  cases s; cases t; simp only at h; rw [h]

theorem candName_inj (base ext : String) {k₁ k₂ : Nat}
    (h : candName base ext k₁ = candName base ext k₂) : k₁ = k₂ := by
  have hd : (base ++ "_").data ++ ((Nat.repr k₁).data ++ ext.data)
      = (base ++ "_").data ++ ((Nat.repr k₂).data ++ ext.data) := by
    simpa [candName, String.data_append, List.append_assoc] using congrArg String.data h
  have hcan := List.append_cancel_left hd
  have hlen : (Nat.repr k₁).data.length = (Nat.repr k₂).data.length := by
    have := congrArg List.length hcan
    simp only [List.length_append] at this
    omega
  have hreprd : (Nat.repr k₁).data = (Nat.repr k₂).data := (List.append_inj hcan hlen).1
  exact natRepr_inj (string_data_inj hreprd)

theorem exists_candName_free (occ : List String) (base ext : String) :
    ∃ k, 1 ≤ k ∧ k ≤ occ.length + 1 ∧ candName base ext k ∉ occ := by
  by_contra hcon
  push_neg at hcon
  have hinj : Function.Injective
      (fun i : Fin (occ.length + 1) => candName base ext (i.1 + 1)) := by
    intro i j hij
    have := candName_inj base ext hij
    exact Fin.ext (by omega)
  have hsub : (Finset.univ.image (fun i : Fin (occ.length + 1) => candName base ext (i.1 + 1)))
      ⊆ occ.toFinset := by
    intro x hx
    simp only [Finset.mem_image] at hx
    obtain ⟨i, _, rfl⟩ := hx
    rw [List.mem_toFinset]
    exact hcon (i.1 + 1) (by omega) (by omega)
  have hcard := Finset.card_le_card hsub
  rw [Finset.card_image_of_injective _ hinj, Finset.card_univ, Fintype.card_fin] at hcard
  have := occ.toFinset_card_le
  omega

theorem uniqueLoop_eq_of_least (occ : List String) (base ext : String) :
    ∀ (fuel counter k : Nat), counter ≤ k → k < counter + fuel →
      candName base ext k ∉ occ →
      (∀ j, counter ≤ j → j < k → candName base ext j ∈ occ) →
      uniqueLoop occ base ext fuel counter = candName base ext k := by
  intro fuel
  induction fuel with
  | zero => intro counter k h1 h2 _ _; omega
  | succ fuel ih =>
    intro counter k h1 h2 hfree hmin
    by_cases hc : candName base ext counter ∈ occ
    · have hck : counter < k := lt_of_le_of_ne h1 (fun he => hfree (he ▸ hc))
      simp only [uniqueLoop, if_pos hc]
      exact ih (counter + 1) k (by omega) (by omega) hfree
        (fun j hj1 hj2 => hmin j (by omega) hj2)
    · have hk : k = counter := by
        by_contra hne
        exact hc (hmin counter le_rfl (by omega))
      simp only [uniqueLoop, if_neg hc, hk]

theorem occNamesIn_mem (occupied : List PyPath) (parent s : String) :
    s ∈ occNamesIn occupied parent ↔ (⟨parent, s⟩ : PyPath) ∈ occupied := by
  simp only [occNamesIn, List.mem_map, List.mem_filter, beq_iff_eq]
  constructor
  · rintro ⟨p, ⟨hp, hpar⟩, hname⟩
    cases p
    simp only at hpar hname
    rw [← hpar, ← hname]
    exact hp
  · intro h
    exact ⟨⟨parent, s⟩, ⟨h, rfl⟩, rfl⟩

/-- Full characterization of `get_unique_filename` on an occupied target: the
result inserts `_k` between stem and suffix for the least free `k ≥ 1`. -/
theorem guf_spec (occupied : List PyPath) (target : PyPath) (hocc : target ∈ occupied) :
    ∃ k, 1 ≤ k ∧
      get_unique_filename occupied target
        = ⟨target.parent, candName (pyStem target.name) (pySuffix target.name) k⟩ ∧
      (⟨target.parent, candName (pyStem target.name) (pySuffix target.name) k⟩ : PyPath)
        ∉ occupied ∧
      (∀ j, 1 ≤ j → j < k →
        (⟨target.parent, candName (pyStem target.name) (pySuffix target.name) j⟩ : PyPath)
          ∈ occupied) := by
  set occ := occNamesIn occupied target.parent with hocc_def
  obtain ⟨k₀, hk₀1, hk₀b, hk₀f⟩ :=
    exists_candName_free occ (pyStem target.name) (pySuffix target.name)
  have hex : ∃ k, 1 ≤ k ∧ candName (pyStem target.name) (pySuffix target.name) k ∉ occ :=
    ⟨k₀, hk₀1, hk₀f⟩
  have hle : Nat.find hex ≤ k₀ := Nat.find_min' hex ⟨hk₀1, hk₀f⟩
  have hmin : ∀ j, 1 ≤ j → j < Nat.find hex →
      candName (pyStem target.name) (pySuffix target.name) j ∈ occ := by
    intro j hj1 hjk
    have hnot := Nat.find_min hex hjk
    push_neg at hnot
    exact hnot hj1
  refine ⟨Nat.find hex, (Nat.find_spec hex).1, ?_, ?_, ?_⟩
  · have heval : uniqueLoop occ (pyStem target.name) (pySuffix target.name) (occ.length + 1) 1
        = candName (pyStem target.name) (pySuffix target.name) (Nat.find hex) :=
      uniqueLoop_eq_of_least occ _ _ (occ.length + 1) 1 (Nat.find hex)
        (Nat.find_spec hex).1 (by omega) (Nat.find_spec hex).2
        (fun j hj1 hj2 => hmin j hj1 hj2)
    simp only [get_unique_filename, if_pos hocc, uniqueNameIn, ← hocc_def, heval]
  · rw [← occNamesIn_mem, ← hocc_def]
    exact (Nat.find_spec hex).2
  · intro j hj1 hjk
    rw [← occNamesIn_mem, ← hocc_def]
    exact hmin j hj1 hjk

/-- `get_unique_filename` always returns an unoccupied path. -/
theorem guf_not_mem (occupied : List PyPath) (target : PyPath) :
    get_unique_filename occupied target ∉ occupied := by
  by_cases hocc : target ∈ occupied
  · obtain ⟨k, _, heq, hfree, _⟩ := guf_spec occupied target hocc
    rw [heq]
    exact hfree
  · simp only [get_unique_filename, if_neg hocc]
    exact hocc

/-! ### Further helper lemmas -/

theorem find?_eq_some_of_unique {α : Type} (p : α → Bool) (l : List α) (c : α)
    (hmem : c ∈ l) (hp : p c = true) (huniq : ∀ x ∈ l, p x = true → x = c) :
    l.find? p = some c := by
  induction l with
  | nil => cases hmem
  | cons a l ih =>
    by_cases ha : p a = true
    · rw [List.find?_cons_of_pos _ ha, huniq a (List.mem_cons_self a l) ha]
    · have hc : c ∈ l := by
        rcases List.mem_cons.mp hmem with h | h
        · rw [h] at hp
          exact absurd hp ha
        · exact h
      rw [List.find?_cons_of_neg _ (by simpa using ha)]
      exact ih hc (fun x hx hpx => huniq x (List.mem_cons_of_mem a hx) hpx)

theorem rfindDot_eq_none {l : List Char} (h : '.' ∉ l) : rfindDot l = none := by
  induction l with
  | nil => rfl
  | cons c rest ih =>
    have hc : ¬(c = '.') := fun he => h (he ▸ List.mem_cons_self c rest)
    have hrest : '.' ∉ rest := fun hm => h (List.mem_cons_of_mem c hm)
    simp [rfindDot, ih hrest, hc]

theorem pySuffix_of_leading_dot_only {name : String} {rest : List Char}
    (hdata : name.data = '.' :: rest) (hrest : '.' ∉ rest) : pySuffix name = "" := by
  simp [pySuffix, hdata, rfindDot, rfindDot_eq_none hrest]

theorem processEntry_dry (uc : Bool) (mvOk : String → Bool) (s : LoopState) (e : Entry) :
    (processEntry uc true mvOk s e).fs = s.fs ∧
    (processEntry uc true mvOk s e).acts.countP isFsMut = s.acts.countP isFsMut ∧
    (processEntry uc true mvOk s e).moved + s.acts.countP isDryMove
      = s.moved + (processEntry uc true mvOk s e).acts.countP isDryMove := by
  by_cases h1 : e.isFile = false
  · simp [processEntry, h1]
  · by_cases h2 : pySuffix e.name = ""
    · simp [processEntry, h1, h2, List.countP_append, isFsMut, isDryMove]
    · simp only [processEntry, h1, h2, if_false, Bool.true_eq_false, false_and, if_true]
      split <;> split <;>
        simp [List.countP_append, List.countP_cons, isFsMut, isDryMove] <;>
        omega

theorem runEntries_dry (uc : Bool) (mvOk : String → Bool) :
    ∀ (l : List Entry) (s : LoopState),
      (runEntries uc true mvOk s l).fs = s.fs ∧
      (runEntries uc true mvOk s l).acts.countP isFsMut = s.acts.countP isFsMut ∧
      (runEntries uc true mvOk s l).moved + s.acts.countP isDryMove
        = s.moved + (runEntries uc true mvOk s l).acts.countP isDryMove := by
  intro l
  induction l with
  | nil => intro s; exact ⟨rfl, rfl, rfl⟩
  | cons e l ih =>
    intro s
    have hstep := processEntry_dry uc mvOk s e
    have hrest := ih (processEntry uc true mvOk s e)
    simp only [runEntries]
    refine ⟨hrest.1.trans hstep.1, hrest.2.1.trans hstep.2.1, ?_⟩
    have ha := hstep.2.2
    have hb := hrest.2.2
    omega

/-! ### The claims -/

/-- C1, counterexample: `AppImage` is present in exactly one category's
extension set (`Programme`), yet `get_category_for_extension` returns
`APPIMAGE` for it (in any casing): the table entry is not lowercase, and the
lookup lowercases its input before matching, so the entry can never match. -/
theorem C1_counterexample :
    FILE_CATEGORIES.countP (fun c => c.2.contains "AppImage") = 1 ∧
    ("Programme", ["exe", "msi", "dmg", "pkg", "deb", "rpm", "AppImage"]) ∈ FILE_CATEGORIES ∧
    "AppImage" ∈ (["exe", "msi", "dmg", "pkg", "deb", "rpm", "AppImage"] : List String) ∧
    get_category_for_extension "AppImage" ≠ "Programme" ∧
    get_category_for_extension "AppImage" = "APPIMAGE" := by decide

/-- C1 (amended): for every extension string whose lowercased form is present
in exactly one category's extension set of the static category table,
`get_category_for_extension` returns that category's name, regardless of the
input casing of the extension. -/
theorem C1_unique_category_lookup (ext : String) (c : String × List String)
    (hmem : c ∈ FILE_CATEGORIES) (hext : pyLower ext ∈ c.2)
    (huniq : ∀ x ∈ FILE_CATEGORIES, pyLower ext ∈ x.2 → x = c) :
    get_category_for_extension ext = c.1 := by
  have hfind : FILE_CATEGORIES.find? (fun x => x.2.contains (pyLower ext)) = some c :=
    find?_eq_some_of_unique _ _ c hmem (by simpa [List.contains] using hext)
      (fun x hx hpx => huniq x hx (by simpa [List.contains] using hpx))
  unfold get_category_for_extension
  rw [hfind]

/-- Witness for C1: `JpG` lowercases into the images category and the lookup
returns `Bilder`. -/
theorem C1_unique_category_lookup_witness :
    pyLower "JpG" ∈ (["jpg", "jpeg", "png", "gif", "bmp", "svg", "webp", "ico"] : List String) ∧
    get_category_for_extension "JpG" = "Bilder" :=
  ⟨by decide,
    C1_unique_category_lookup "JpG"
      ("Bilder", ["jpg", "jpeg", "png", "gif", "bmp", "svg", "webp", "ico"])
      (by decide) (by decide) (by decide)⟩

/-- The end-to-end scenario directory of C2: four files and one subfolder. -/
def scenarioFS : FS :=
  ⟨[⟨"photo.JPG", true⟩, ⟨"notes.txt", true⟩, ⟨"archive.tar.gz", true⟩,
    ⟨"README", true⟩, ⟨"old", false⟩], []⟩

/-- C2, counterexample: in the scenario the files go to the code's category
folders `Bilder`, `Dokumente` and `Archive` (`gz` is a recognized archive
extension), not to `Images`, `Documents` and `GZ` as the claim states. -/
theorem C2_counterexample :
    Act.moveA "photo.JPG" "Bilder" "photo.JPG"
      ∈ (organize_downloads true true scenarioFS true false (fun _ => true)).actions ∧
    Act.moveA "photo.JPG" "Images" "photo.JPG"
      ∉ (organize_downloads true true scenarioFS true false (fun _ => true)).actions ∧
    Act.moveA "notes.txt" "Documents" "notes.txt"
      ∉ (organize_downloads true true scenarioFS true false (fun _ => true)).actions ∧
    Act.moveA "archive.tar.gz" "GZ" "archive.tar.gz"
      ∉ (organize_downloads true true scenarioFS true false (fun _ => true)).actions ∧
    Act.moveA "archive.tar.gz" "Archive" "archive.tar.gz"
      ∈ (organize_downloads true true scenarioFS true false (fun _ => true)).actions := by decide

/-- C2 (amended): with categories enabled and all moves succeeding, the run on
the scenario directory moves `photo.JPG` to `Bilder/photo.JPG`, `notes.txt` to
`Dokumente/notes.txt` and `archive.tar.gz` to `Archive/archive.tar.gz` (the
extension is the final suffix `gz`, which is a recognized archive extension),
skips `README` (no extension, counted) and `old/` (not a file, silent), and
reports a final tally of 3 moved and 1 skipped. -/
theorem C2_end_to_end_scenario :
    organize_downloads true true scenarioFS true false (fun _ => true)
      = ⟨⟨[⟨"README", true⟩, ⟨"old", false⟩, ⟨"Bilder", false⟩, ⟨"Dokumente", false⟩,
            ⟨"Archive", false⟩],
          [("Bilder", "photo.JPG"), ("Dokumente", "notes.txt"),
            ("Archive", "archive.tar.gz")]⟩,
         [Act.mkdirA "Bilder", Act.moveA "photo.JPG" "Bilder" "photo.JPG",
          Act.mkdirA "Dokumente", Act.moveA "notes.txt" "Dokumente" "notes.txt",
          Act.mkdirA "Archive", Act.moveA "archive.tar.gz" "Archive" "archive.tar.gz",
          Act.skipNoExt "README", Act.tally 3 1],
         3, 1⟩ := by decide

/-- C3: `get_unique_filename` returns an unoccupied target unchanged; an
occupied target gets `_k` inserted between its base name and final extension,
where `k` is the smallest integer starting at 1 whose resulting path is not
occupied. -/
theorem C3_collision_resolution (occupied : List PyPath) (target : PyPath) :
    (target ∉ occupied → get_unique_filename occupied target = target) ∧
    (target ∈ occupied → ∃ k, 1 ≤ k ∧
      get_unique_filename occupied target
        = ⟨target.parent, pyStem target.name ++ "_" ++ Nat.repr k ++ pySuffix target.name⟩ ∧
      (⟨target.parent,
          pyStem target.name ++ "_" ++ Nat.repr k ++ pySuffix target.name⟩ : PyPath)
        ∉ occupied ∧
      (∀ j, 1 ≤ j → j < k →
        (⟨target.parent,
            pyStem target.name ++ "_" ++ Nat.repr j ++ pySuffix target.name⟩ : PyPath)
          ∈ occupied)) := by
  constructor
  · intro h
    simp [get_unique_filename, h]
  · intro h
    have := guf_spec occupied target h
    simpa only [candName] using this

/-- Witness for C3: with `report.pdf` and `report_1.pdf` both occupied the
result is `report_2.pdf`. -/
theorem C3_collision_resolution_witness :
    ((⟨"d", "report.pdf"⟩ : PyPath)
        ∈ [(⟨"d", "report.pdf"⟩ : PyPath), ⟨"d", "report_1.pdf"⟩]) ∧
    get_unique_filename [(⟨"d", "report.pdf"⟩ : PyPath), ⟨"d", "report_1.pdf"⟩]
        ⟨"d", "report.pdf"⟩
      = ⟨"d", "report_2.pdf"⟩ ∧
    (∃ k, 1 ≤ k ∧
      get_unique_filename [(⟨"d", "report.pdf"⟩ : PyPath), ⟨"d", "report_1.pdf"⟩]
          ⟨"d", "report.pdf"⟩
        = ⟨"d", pyStem "report.pdf" ++ "_" ++ Nat.repr k ++ pySuffix "report.pdf"⟩ ∧
      (⟨"d", pyStem "report.pdf" ++ "_" ++ Nat.repr k ++ pySuffix "report.pdf"⟩ : PyPath)
        ∉ [(⟨"d", "report.pdf"⟩ : PyPath), ⟨"d", "report_1.pdf"⟩] ∧
      (∀ j, 1 ≤ j → j < k →
        (⟨"d", pyStem "report.pdf" ++ "_" ++ Nat.repr j ++ pySuffix "report.pdf"⟩ : PyPath)
          ∈ [(⟨"d", "report.pdf"⟩ : PyPath), ⟨"d", "report_1.pdf"⟩])) :=
  ⟨by decide, by decide,
    (C3_collision_resolution [⟨"d", "report.pdf"⟩, ⟨"d", "report_1.pdf"⟩]
      ⟨"d", "report.pdf"⟩).2 (by decide)⟩

/-- C4: when the move of one entry fails, the run logs the error as the last
line for that entry, counts exactly one more skip, leaves the moved counter
unchanged, and continues with the remaining entries; the failure never aborts
the loop. -/
theorem C4_move_failure_continues (uc : Bool) (mvOk : String → Bool)
    (s : LoopState) (item : Entry) (l : List Entry)
    (hfile : item.isFile = true) (hsuf : pySuffix item.name ≠ "")
    (hfail : mvOk item.name = false) :
    (processEntry uc false mvOk s item).acts.getLast? = some (Act.moveErr item.name) ∧
    (processEntry uc false mvOk s item).skipped = s.skipped + 1 ∧
    (processEntry uc false mvOk s item).moved = s.moved ∧
    runEntries uc false mvOk s (item :: l)
      = runEntries uc false mvOk (processEntry uc false mvOk s item) l := by
  have h1 : ¬(item.isFile = false) := by simp [hfile]
  have hmv : ¬(mvOk item.name = true) := by simp [hfail]
  refine ⟨?_, ?_, ?_, rfl⟩ <;>
    simp only [processEntry, if_neg h1, if_neg hsuf, Bool.false_eq_true, if_false,
      if_neg hmv, eq_self_iff_true, true_and] <;>
    split <;> split <;> simp [List.getLast?_concat]

/-- Witness for C4: a single-file directory whose move fails. -/
theorem C4_move_failure_continues_witness :
    pySuffix "a.txt" ≠ "" ∧
    ((processEntry true false (fun _ => false) ⟨⟨[], []⟩, [], 0, 0⟩
        ⟨"a.txt", true⟩).acts.getLast? = some (Act.moveErr "a.txt") ∧
      (processEntry true false (fun _ => false) ⟨⟨[], []⟩, [], 0, 0⟩
        ⟨"a.txt", true⟩).skipped = 0 + 1 ∧
      (processEntry true false (fun _ => false) ⟨⟨[], []⟩, [], 0, 0⟩
        ⟨"a.txt", true⟩).moved = 0 ∧
      runEntries true false (fun _ => false) ⟨⟨[], []⟩, [], 0, 0⟩ [⟨"a.txt", true⟩]
        = runEntries true false (fun _ => false)
            (processEntry true false (fun _ => false) ⟨⟨[], []⟩, [], 0, 0⟩
              ⟨"a.txt", true⟩) []) :=
  ⟨by decide,
    C4_move_failure_continues true (fun _ => false) ⟨⟨[], []⟩, [], 0, 0⟩
      ⟨"a.txt", true⟩ [] rfl (by decide) rfl⟩

/-- The directory of C5's counterexample: `a.txt` and `a_1.txt` at the root,
and a `Dokumente` folder that already holds an `a.txt`. -/
def dryDivergeFS : FS :=
  ⟨[⟨"a.txt", true⟩, ⟨"a_1.txt", true⟩, ⟨"Dokumente", false⟩], [("Dokumente", "a.txt")]⟩

/-- C5, counterexample: the dry run plans `a_1.txt → Dokumente/a_1.txt`, but a
real run moves `a_1.txt` to `Dokumente/a_1_1.txt`, because its own earlier move
of `a.txt` (renamed to `a_1.txt` inside `Dokumente`) creates a collision the
dry run never sees.  Dry-run name resolution therefore does not always match a
real run. -/
theorem C5_counterexample :
    Act.dryMove "a_1.txt" "Dokumente" "a_1.txt"
      ∈ (organize_downloads true true dryDivergeFS true true (fun _ => true)).actions ∧
    Act.moveA "a_1.txt" "Dokumente" "a_1_1.txt"
      ∈ (organize_downloads true true dryDivergeFS true false (fun _ => true)).actions ∧
    Act.moveA "a_1.txt" "Dokumente" "a_1.txt"
      ∉ (organize_downloads true true dryDivergeFS true false (fun _ => true)).actions := by
  decide

/-- C5 (amended): a dry run performs no filesystem mutation, emits one report
line per file that would be moved and increments the moved counter for each;
destination names (collision suffixes included) are resolved against the files
existing at the start of the run, which can differ from a real run when the
real run's own moves create new collisions. -/
theorem C5_dry_run_no_mutation (pathOk isDir : Bool) (fs : FS) (uc : Bool)
    (mvOk : String → Bool) :
    (organize_downloads pathOk isDir fs uc true mvOk).fs = fs ∧
    (organize_downloads pathOk isDir fs uc true mvOk).actions.countP isFsMut = 0 ∧
    (organize_downloads pathOk isDir fs uc true mvOk).moved
      = (organize_downloads pathOk isDir fs uc true mvOk).actions.countP isDryMove := by
  by_cases hp : pathOk = false
  · simp [organize_downloads, hp, isFsMut, isDryMove]
  · by_cases hd : isDir = false
    · simp [organize_downloads, hp, hd, isFsMut, isDryMove]
    · have h := runEntries_dry uc mvOk fs.root ⟨fs, [], 0, 0⟩
      have hfs := h.1
      have h1 := h.2.1
      have h2 := h.2.2
      simp only [List.countP_nil] at h1 h2
      simp only [organize_downloads, if_neg hp, if_neg hd]
      refine ⟨hfs, ?_, ?_⟩
      · simp [List.countP_append, List.countP_cons, isFsMut, h1]
      · simp only [List.countP_append, List.countP_cons, List.countP_nil, isDryMove]
        simp only [Bool.false_eq_true, if_false]
        omega

/-- C7: when the target path does not exist or is not a directory, the run
only reports that condition: the filesystem is untouched and both counters are
zero. -/
theorem C7_invalid_path (pathOk isDir : Bool) (fs : FS) (uc dry : Bool)
    (mvOk : String → Bool) (h : pathOk = false ∨ isDir = false) :
    (organize_downloads pathOk isDir fs uc dry mvOk).fs = fs ∧
    (organize_downloads pathOk isDir fs uc dry mvOk).moved = 0 ∧
    (organize_downloads pathOk isDir fs uc dry mvOk).skipped = 0 ∧
    ((organize_downloads pathOk isDir fs uc dry mvOk).actions = [Act.errNotExist] ∨
      (organize_downloads pathOk isDir fs uc dry mvOk).actions = [Act.errNotDir]) := by
  by_cases hp : pathOk = false
  · simp [organize_downloads, hp]
  · rcases h with h | h
    · exact absurd h hp
    · simp [organize_downloads, hp, h]

/-- Witness for C7: a run against a non-existent path on a non-empty directory
model. -/
theorem C7_invalid_path_witness :
    ((false = false ∨ true = false) : Prop) ∧
    ((organize_downloads false true ⟨[⟨"x.txt", true⟩], []⟩ true false
        (fun _ => true)).fs = ⟨[⟨"x.txt", true⟩], []⟩ ∧
      (organize_downloads false true ⟨[⟨"x.txt", true⟩], []⟩ true false
        (fun _ => true)).moved = 0 ∧
      (organize_downloads false true ⟨[⟨"x.txt", true⟩], []⟩ true false
        (fun _ => true)).skipped = 0 ∧
      ((organize_downloads false true ⟨[⟨"x.txt", true⟩], []⟩ true false
          (fun _ => true)).actions = [Act.errNotExist] ∨
        (organize_downloads false true ⟨[⟨"x.txt", true⟩], []⟩ true false
          (fun _ => true)).actions = [Act.errNotDir])) :=
  ⟨Or.inl rfl,
    C7_invalid_path false true ⟨[⟨"x.txt", true⟩], []⟩ true false (fun _ => true)
      (Or.inl rfl)⟩

/-- C6, counterexample: the table entry `AppImage` (in `Programme`) is not
lowercase. -/
theorem C6_counterexample :
    ("Programme", ["exe", "msi", "dmg", "pkg", "deb", "rpm", "AppImage"]) ∈ FILE_CATEGORIES ∧
    "AppImage" ∈ (["exe", "msi", "dmg", "pkg", "deb", "rpm", "AppImage"] : List String) ∧
    pyLower "AppImage" ≠ "AppImage" := by decide

/-- C6 (amended): every extension in the static category table is free of a
leading dot, the extension sets of distinct categories are pairwise disjoint,
and every entry is lowercase with the single exception of `AppImage`.  The
table is a constant of the embedding, mirroring that the program defines it
once at module load and never writes to it. -/
theorem C6_table_invariants :
    (∀ c ∈ FILE_CATEGORIES, ∀ e ∈ c.2, e.data.head? ≠ some '.') ∧
    (∀ c ∈ FILE_CATEGORIES, ∀ e ∈ c.2, pyLower e = e ∨ e = "AppImage") ∧
    (∀ c ∈ FILE_CATEGORIES, ∀ x ∈ FILE_CATEGORIES, c ≠ x → ∀ e ∈ c.2, e ∉ x.2) := by
  decide

/-- C8: with category-mode disabled, the destination folder reported for any
file entry is the uppercased raw extension (the final suffix without its dot),
whatever the extension is — the category table is never consulted. -/
theorem C8_raw_extension_folder (mvOk : String → Bool) (s : LoopState) (item : Entry)
    (hfile : item.isFile = true) (hsuf : pySuffix item.name ≠ "") :
    ∃ dst, (processEntry false true mvOk s item).acts
      = s.acts
        ++ (if fileInSub s.fs (pyUpper (lstripDot (pySuffix item.name))) item.name = true
            then [Act.renameWarn dst] else [])
        ++ [Act.dryMove item.name (pyUpper (lstripDot (pySuffix item.name))) dst] := by
  have h1 : ¬(item.isFile = false) := by simp [hfile]
  refine ⟨if fileInSub s.fs (pyUpper (lstripDot (pySuffix item.name))) item.name = true
      then uniqueNameIn (subNames s.fs (pyUpper (lstripDot (pySuffix item.name)))) item.name
      else item.name, ?_⟩
  by_cases hc : fileInSub s.fs (pyUpper (lstripDot (pySuffix item.name))) item.name = true <;>
    simp [processEntry, h1, hsuf, hc]

/-- Witness for C8: `photo.jpg` — although `jpg` is in the images category,
category-mode off sends it to folder `JPG`. -/
theorem C8_raw_extension_folder_witness :
    "jpg" ∈ (["jpg", "jpeg", "png", "gif", "bmp", "svg", "webp", "ico"] : List String) ∧
    pyUpper (lstripDot (pySuffix "photo.jpg")) = "JPG" ∧
    (∃ dst, (processEntry false true (fun _ => true) ⟨⟨[], []⟩, [], 0, 0⟩
          ⟨"photo.jpg", true⟩).acts
        = []
          ++ (if fileInSub ⟨[], []⟩ (pyUpper (lstripDot (pySuffix "photo.jpg"))) "photo.jpg"
                = true
              then [Act.renameWarn dst] else [])
          ++ [Act.dryMove "photo.jpg" (pyUpper (lstripDot (pySuffix "photo.jpg"))) dst]) :=
  ⟨by decide, by decide,
    C8_raw_extension_folder (fun _ => true) ⟨⟨[], []⟩, [], 0, 0⟩ ⟨"photo.jpg", true⟩
      rfl (by decide)⟩

/-- C9: `get_unique_filename` terminates with a fresh path on every input: the
returned path is never occupied, and the loop's counter reaches a free
candidate after at most `occupied-per-directory + 1` steps. -/
theorem C9_unique_filename_terminates (occupied : List PyPath) (target : PyPath) :
    get_unique_filename occupied target ∉ occupied ∧
    ∃ k, 1 ≤ k ∧ k ≤ (occNamesIn occupied target.parent).length + 1 ∧
      candName (pyStem target.name) (pySuffix target.name) k
        ∉ occNamesIn occupied target.parent :=
  ⟨guf_not_mem occupied target,
    exists_candName_free (occNamesIn occupied target.parent) (pyStem target.name)
      (pySuffix target.name)⟩

/-- C10: a regular file whose name starts with a dot and has no further dot
(such as `.gitignore`) is treated as extensionless: the entry is skipped with
one log line, the skipped counter goes up by one, and nothing else — no folder
is derived, no filesystem change happens. -/
theorem C10_dotfile_skipped (uc dry : Bool) (mvOk : String → Bool) (s : LoopState)
    (item : Entry) (hfile : item.isFile = true)
    (hname : ∃ rest, item.name.data = '.' :: rest ∧ '.' ∉ rest) :
    processEntry uc dry mvOk s item
      = { s with acts := s.acts ++ [Act.skipNoExt item.name], skipped := s.skipped + 1 } := by
  obtain ⟨rest, hdata, hrest⟩ := hname
  have hsuf : pySuffix item.name = "" := pySuffix_of_leading_dot_only hdata hrest
  have h1 : ¬(item.isFile = false) := by simp [hfile]
  simp [processEntry, h1, hsuf]

/-- Witness for C10: `.gitignore`. -/
theorem C10_dotfile_skipped_witness :
    (∃ rest, (".gitignore" : String).data = '.' :: rest ∧ '.' ∉ rest) ∧
    processEntry true false (fun _ => true) ⟨⟨[], []⟩, [], 0, 0⟩ ⟨".gitignore", true⟩
      = ⟨⟨[], []⟩, [Act.skipNoExt ".gitignore"], 0, 0 + 1⟩ :=
  ⟨⟨['g', 'i', 't', 'i', 'g', 'n', 'o', 'r', 'e'], by decide, by decide⟩,
    C10_dotfile_skipped true false (fun _ => true) ⟨⟨[], []⟩, [], 0, 0⟩ ⟨".gitignore", true⟩
      rfl ⟨['g', 'i', 't', 'i', 'g', 'n', 'o', 'r', 'e'], by decide, by decide⟩⟩
